import Mathlib

/-!
Verification of the dataSetGenerator repository (synthetic fixture-data
generators under `Generation/`).

Modelling conventions, shared by all generators:

* Timestamps (`datetime` values) are modelled as `Int` seconds relative to
  midnight of the fixed reference date `TODAY = 2025-09-21`; `timedelta`
  arithmetic becomes integer arithmetic (1 day = 86400 seconds).
* `random.randint(lo, hi)` consumes one abstract random natural `r` and is
  modelled as `lo + r % (hi - lo + 1)`; any value in `[lo, hi]` and only such
  values are reachable.  `random.random() < rate` coin flips are modelled as an
  explicit `Bool`.  `random.choice(pool)` on a non-empty pool is modelled as
  indexing by `r % pool.length`.
* `random.choices(labels, weights)` is modelled by `pick_weighted` over a list
  of `(label, weight)` pairs with natural-number weights (float weight tables
  from the source are scaled by 100 to integers, preserving the support and the
  ratios exactly); as in CPython, a label with weight 0 is never selected.
* Python `dict` state (`session_used`) is an association list where updates
  shadow older entries; `set` state (`used_pairs`) is a list queried by
  membership.
* The `while len(rows) < n and attempts < max_attempts` loops are modelled as
  structural recursion over a stream of per-attempt random draws truncated at
  `max_attempts`; the loop functions also return the number of attempts
  consumed.
* Opaque generated identifiers (`uuid.uuid4()` primary keys) are irrelevant to
  every claim and are omitted from the modelled rows.
-/

namespace DataGen

/-- Seconds at `2025-09-21T00:00:00`, the origin of the time scale
(`today_start()` in the sources). -/
def todayStart : Int := 0

/-- `today_end()` from the sources: `TODAY` at 23:59:59. -/
def todayEnd : Int := todayStart + (23 * 3600 + 59 * 60 + 59)

/-- `rand_dt_between(a, b)` from `generate_enrollments.py` /
`generate_participant_consents.py`: swap so `a ≤ b`, then
`a + randint(0, max(0, delta))` where `delta = int((b - a).total_seconds())`. -/
def rand_dt_between (a b : Int) (r : Nat) : Int :=
  let lo := min a b
  let hi := max a b
  lo + Int.ofNat (r % ((hi - lo).toNat + 1))

/-- Total weight of a `random.choices` weight table. -/
def weightSum {α : Type} (ws : List (α × Nat)) : Nat :=
  (ws.map Prod.snd).sum

/-- Walk the cumulative weights, as CPython's `bisect` over `cum_weights`
does: return the first label whose cumulative weight exceeds the drawn
point `t`. -/
def pickWeightedGo {α : Type} [Inhabited α] : List (α × Nat) → Nat → α
  | [], _ => default
  | (a, w) :: rest, t => if t < w then a else pickWeightedGo rest (t - w)

/-- `pick_weighted(weights)` / `random.choices(labels, weights)`: draw a point
uniformly below the total weight and select by cumulative weight. -/
def pick_weighted {α : Type} [Inhabited α] (ws : List (α × Nat)) (r : Nat) : α :=
  pickWeightedGo ws (r % weightSum ws)

/-! ## Enrollment generator (`generate_enrollments.py`) -/

/-- `STATUS_WEIGHTS_FUTURE` (floats scaled by 100). -/
def STATUS_WEIGHTS_FUTURE : List (String × Nat) :=
  [("enrolled", 70), ("cancelled", 12), ("waitlisted", 8), ("no_show", 0), ("attended", 0)]

/-- `STATUS_WEIGHTS_PAST` (floats scaled by 100). -/
def STATUS_WEIGHTS_PAST : List (String × Nat) :=
  [("attended", 55), ("no_show", 12), ("cancelled", 8), ("enrolled", 25), ("waitlisted", 0)]

/-- A session record as returned by `read_sessions` (or synthesized):
`startTs`/`endTs` are `none` when the field is missing or unparseable
(`parse_dt` returned `None`), `capacity` is `none` when absent or
non-numeric. -/
structure Sess where
  session_id : String
  startTs : Option Int
  endTs : Option Int
  capacity : Option Int
deriving DecidableEq

/-- An output Enrollment row. -/
structure Enr where
  participant_id : String
  session_id : String
  status : String
  created_at : Int
  updated_at : Int
deriving DecidableEq

/-- The mutable state threaded through `build_enrollment_for`:
the `used_pairs` set and the `session_used` dict. -/
structure EState where
  used_pairs : List (String × String)
  session_used : List (String × Nat)
deriving DecidableEq

/-- `session_used.get(sid, 0)`. -/
def lookupNat (m : List (String × Nat)) (k : String) : Nat :=
  match m.find? (fun p => p.1 == k) with
  | some p => p.2
  | none => 0

/-- `session_used[sid] = v` (newer bindings shadow older ones). -/
def setNat (m : List (String × Nat)) (k : String) (v : Nat) : List (String × Nat) :=
  (k, v) :: m

/-- `parse_dt(sess.get("startTs","")) or today_start() + timedelta(days=7)`. -/
def sessStart (s : Sess) : Int :=
  s.startTs.getD (todayStart + 7 * 86400)

/-- `parse_dt(sess.get("endTs","")) or (start + timedelta(hours=1))`. -/
def sessEnd (s : Sess) : Int :=
  s.endTs.getD (sessStart s + 3600)

/-- The statuses that occupy a seat. -/
def seatStatuses : List String := ["enrolled", "attended", "no_show"]

/-- `seat_available = (cap is None) or (taken < max(0, cap))`. -/
def seatAvailable (sess : Sess) (st : EState) : Bool :=
  match sess.capacity with
  | none => true
  | some c => decide ((lookupNat st.session_used sess.session_id : Int) < max 0 c)

/-- The status choice of `build_enrollment_for`: past sessions draw from the
past table, future ones from the future table, and a full session forces
`"waitlisted"`. -/
def enrStatus (sess : Sess) (st : EState) (r : Nat) : String :=
  if seatAvailable sess st then
    if sessEnd sess ≤ todayEnd then pick_weighted STATUS_WEIGHTS_PAST r
    else pick_weighted STATUS_WEIGHTS_FUTURE r
  else "waitlisted"

/-- The `[open_from, open_to]` window for `created_at`, including the
re-anchoring applied when the window is empty or inverted. -/
def enrWindow (sess : Sess) : Int × Int :=
  let start := sessStart sess
  let open_from := start - 90 * 86400
  let open_to := min (start - 3600) todayEnd
  if open_to ≤ open_from then ((start - 1800) - 86400, start - 1800)
  else (open_from, open_to)

/-- `created_at = rand_dt_between(open_from, open_to)`. -/
def enrCreated (sess : Sess) (r : Nat) : Int :=
  rand_dt_between (enrWindow sess).1 (enrWindow sess).2 r

/-- The status-dependent `updated_at` computation of `build_enrollment_for`. -/
def enrUpdated (sess : Sess) (status : String) (created : Int) (r : Nat) : Int :=
  let start := sessStart sess
  let now := todayEnd
  if status = "cancelled" then
    let last := min (start - 600) now
    let last2 := if last ≤ created then created + 300 else last
    rand_dt_between (created + 60) last2 r
  else if status = "attended" ∨ status = "no_show" then
    let base := if sessEnd sess ≤ now then sessEnd sess else start
    rand_dt_between base (min (base + 3 * 3600) now) r
  else
    let last := min now start
    let last2 := if last ≤ created then created + 300 else last
    rand_dt_between created last2 r

/-- The random draws consumed by one call to `build_enrollment_for`. -/
structure Rnd where
  rStatus : Nat
  rCreated : Nat
  rUpdated : Nat
deriving DecidableEq

/-- The row built by `build_enrollment_for` when the pair is fresh. -/
def enrRow (pid : String) (sess : Sess) (st : EState) (rnd : Rnd) : Enr :=
  { participant_id := pid, session_id := sess.session_id,
    status := enrStatus sess st rnd.rStatus,
    created_at := enrCreated sess rnd.rCreated,
    updated_at := enrUpdated sess (enrStatus sess st rnd.rStatus)
      (enrCreated sess rnd.rCreated) rnd.rUpdated }

/-- `session_used` after one accepted row: incremented exactly when the seat
was available and the chosen status occupies a seat. -/
def enrSessionUsed (sess : Sess) (st : EState) (status : String) : List (String × Nat) :=
  if seatAvailable sess st = true ∧ status ∈ seatStatuses then
    setNat st.session_used sess.session_id (lookupNat st.session_used sess.session_id + 1)
  else st.session_used

/-- The state after one accepted row: the pair is recorded and the seat count
possibly incremented. -/
def enrState (pid : String) (sess : Sess) (st : EState) (rnd : Rnd) : EState :=
  { used_pairs := (pid, sess.session_id) :: st.used_pairs,
    session_used := enrSessionUsed sess st (enrStatus sess st rnd.rStatus) }

/-- `build_enrollment_for(participant_id, sess, used_pairs, session_used)`:
returns the optional row together with the updated state. -/
def build_enrollment_for (pid : String) (sess : Sess) (st : EState) (rnd : Rnd) :
    Option Enr × EState :=
  if (pid, sess.session_id) ∈ st.used_pairs then (none, st)
  else (some (enrRow pid sess st rnd), enrState pid sess st rnd)

/-- One iteration of the main enrollment loop: the chosen participant, the
chosen session, and the random draws for the row. -/
structure Attempt where
  pid : String
  sess : Sess
  rnd : Rnd
deriving DecidableEq

/-- The key pair of an enrollment row. -/
def enrPair (r : Enr) : String × String :=
  (r.participant_id, r.session_id)

/-- The key pair sampled by one attempt of the main loop. -/
def attPair (a : Attempt) : String × String :=
  (a.pid, a.sess.session_id)

/-- The `while len(rows) < n and attempts < max_attempts` loop of
`generate_enrollments.main`, over an explicit stream of attempts; returns the
rows together with the number of attempts consumed. -/
def enrollLoop (n : Nat) : List Attempt → EState → List Enr → Nat → List Enr × Nat
  | [], _, rows, att => (rows, att)
  | a :: rest, st, rows, att =>
    if n ≤ rows.length then (rows, att)
    else
      match build_enrollment_for a.pid a.sess st a.rnd with
      | (none, st') => enrollLoop n rest st' rows (att + 1)
      | (some row, st') => enrollLoop n rest st' (rows ++ [row]) (att + 1)

/-- The enrollment generation run: empty initial state, attempt stream
truncated at `max_attempts = n * 15`. -/
def runEnrollments (n : Nat) (stream : List Attempt) : List Enr × Nat :=
  enrollLoop n (stream.take (15 * n)) ⟨[], []⟩ [] 0

/-- Number of seat-occupying rows for session `s`. -/
def seatCount (s : String) (rows : List Enr) : Nat :=
  (rows.filter (fun r => decide (r.session_id = s ∧ r.status ∈ seatStatuses))).length

/-- "Once the seats are taken, every further row is waitlisted": any
non-waitlisted row for session `s` was emitted while the seat count of the
rows before it was still below the capacity bound. -/
def seatPosOK (s : String) (cap : Int) (rows : List Enr) : Prop :=
  ∀ i, (h : i < rows.length) → (rows.get ⟨i, h⟩).session_id = s →
    (rows.get ⟨i, h⟩).status ≠ "waitlisted" →
    (seatCount s (rows.take i) : Int) < cap

/-! ## Payment generator (`generate_payments.py`) -/

/-- `AMOUNT_BUCKETS` zipped with `AMOUNT_WEIGHTS`. -/
def AMOUNT_BUCKETS : List (Int × Nat) :=
  [(10, 10), (15, 22), (20, 28), (25, 20), (30, 12), (40, 5), (50, 3)]

/-- `METHODS` zipped with `METHOD_WEIGHTS`. -/
def METHODS : List (String × Nat) :=
  [("gift_card", 45), ("cash", 20), ("credit_card", 15), ("paypal", 10), ("venmo", 10)]

/-- `pick_amount()`. -/
def pick_amount (r : Nat) : Int :=
  pick_weighted AMOUNT_BUCKETS r

/-- `pick_method()`. -/
def pick_method (r : Nat) : String :=
  pick_weighted METHODS r

/-- Python `str.lower()` (ASCII data only in this repository). -/
def lowerStr (s : String) : String :=
  String.mk (s.data.map Char.toLower)

/-- `map_payment_status(enrollment_status)`. -/
def map_payment_status (enrollment_status : String) (r : Nat) : String :=
  let s := lowerStr enrollment_status
  if s = "attended" then
    pick_weighted [("paid", 82), ("pending", 8), ("refunded", 5), ("failed", 5)] r
  else if s = "no_show" then
    pick_weighted [("waived", 70), ("pending", 10), ("paid", 5), ("refunded", 5), ("failed", 10)] r
  else if s = "cancelled" then
    pick_weighted [("refunded", 60), ("void", 35), ("failed", 3), ("waived", 2)] r
  else if s = "waitlisted" then "void"
  else
    pick_weighted [("pending", 85), ("paid", 5), ("failed", 3), ("refunded", 2), ("waived", 5)] r

/-- `amount_for_status(pay_status)`. -/
def amount_for_status (pay_status : String) (r : Nat) : Int :=
  if pay_status = "void" ∨ pay_status = "waived" then 0 else pick_amount r

/-- `method_for_status(pay_status)`. -/
def method_for_status (pay_status : String) (r : Nat) : String :=
  if pay_status = "void" ∨ pay_status = "waived" then "none" else pick_method r

/-- An input enrollment as read by `read_enrollments` (status already
lower-cased there, but `map_payment_status` lower-cases again anyway). -/
structure EnrRef where
  participant_id : String
  session_id : String
  status : String
deriving DecidableEq

/-- An output Payment row. -/
structure Pay where
  participant_id : String
  session_id : String
  amount : Int
  method : String
  status : String
deriving DecidableEq

/-- One iteration of the payment loop: the sampled enrollment and the random
draws for status, amount and method. -/
structure PayAttempt where
  e : EnrRef
  rStatus : Nat
  rAmount : Nat
  rMethod : Nat
deriving DecidableEq

/-- The key pair sampled by one attempt of the payment loop. -/
def payAttPair (a : PayAttempt) : String × String :=
  (a.e.participant_id, a.e.session_id)

/-- The key pair of a payment row. -/
def payPair (p : Pay) : String × String :=
  (p.participant_id, p.session_id)

/-- The `while len(rows) < n and attempts < max_attempts` loop of
`generate_payments.main`. -/
def payLoop (n : Nat) : List PayAttempt → List (String × String) → List Pay → Nat → List Pay × Nat
  | [], _, rows, att => (rows, att)
  | a :: rest, used, rows, att =>
    if n ≤ rows.length then (rows, att)
    else if payAttPair a ∈ used then payLoop n rest used rows (att + 1)
    else
      let ps := map_payment_status a.e.status a.rStatus
      payLoop n rest (payAttPair a :: used)
        (rows ++ [{ participant_id := a.e.participant_id, session_id := a.e.session_id,
                    amount := amount_for_status ps a.rAmount,
                    method := method_for_status ps a.rMethod, status := ps }])
        (att + 1)

/-- The payment generation run: attempt stream truncated at
`max_attempts = n * 10`. -/
def runPayments (n : Nat) (stream : List PayAttempt) : List Pay × Nat :=
  payLoop n (stream.take (10 * n)) [] [] 0

/-! ## File-driven consent generator (`generate_consent_versions.py`) -/

/-- A consent-version record with its parsed effective window (`_from`/`_to`
are `none` when the field is blank or unparseable). -/
structure VRow where
  consent_version_id : String
  effFrom : Option Int
  effTo : Option Int
deriving DecidableEq

/-- The final filter of `read_consent_versions`: keep only versions whose
`effectiveFrom` parsed and has already begun (`r["_from"] <= end_today`). -/
def versionsKeep (rows : List VRow) : List VRow :=
  rows.filter fun r =>
    match r.effFrom with
    | some f => decide (f ≤ todayEnd)
    | none => false

/-- `pick_signed(eff_from, eff_to)`. -/
def pick_signed (effFrom : Int) (effTo : Option Int) (r : Nat) : Option Int :=
  let e := min (effTo.getD todayEnd) todayEnd
  if e < effFrom then none
  else some (effFrom + Int.ofNat (r % ((e - effFrom).toNat + 1)))

/-- `maybe_withdraw(signed_at, eff_to, rate)`; the `random.random() >= rate`
coin is the explicit `hit` flag, and the blank result is `none`. -/
def maybe_withdraw (signed : Int) (effTo : Option Int) (hit : Bool) (r : Nat) : Option Int :=
  if !hit then none
  else
    let last := min (effTo.getD todayEnd) todayEnd
    if last ≤ signed then none
    else
      let delta := (last - signed).toNat
      let w := signed + Int.ofNat (60 + r % (max 60 delta - 60 + 1))
      some (if last < w then last else w)

/-- An output ParticipantConsent row (the generated `participant_consent_id`
UUID is omitted). -/
structure ConsRow where
  participant_id : String
  consent_version_id : String
  signedAt : Int
  withdrawnAt : Option Int
deriving DecidableEq

/-- One iteration of `make_rows`: pool indices and the random draws. -/
structure ConsAttempt where
  rPid : Nat
  rVer : Nat
  rSigned : Nat
  hit : Bool
  rWithdraw : Nat
deriving DecidableEq

/-- Placeholder for `List.getD` on the version pool (never selected, since the
pool is non-empty whenever the loop body runs). -/
def defaultVRow : VRow := ⟨"", none, none⟩

/-- One iteration body of `make_rows`' loop: pick the participant and the
version, skip duplicates (`continue`), skip when `pick_signed` yields nothing
(`if not signed: continue`), otherwise produce the row.  A version whose
`_from` failed to parse cannot occur here (the pool was filtered by
`read_consent_versions`); such an attempt is skipped. -/
def consStep (participants : List String) (versions : List VRow) (allowDup : Bool)
    (used : List (String × String)) (a : ConsAttempt) : Option ConsRow :=
  let pid := participants.getD (a.rPid % participants.length) ""
  let v := versions.getD (a.rVer % versions.length) defaultVRow
  if allowDup = false ∧ (pid, v.consent_version_id) ∈ used then none
  else
    match v.effFrom with
    | none => none
    | some f =>
      match pick_signed f v.effTo a.rSigned with
      | none => none
      | some signed =>
        some { participant_id := pid, consent_version_id := v.consent_version_id,
               signedAt := signed,
               withdrawnAt := maybe_withdraw signed v.effTo a.hit a.rWithdraw }

/-- The `while len(out) < n and attempts < max_attempts` loop of
`make_rows`. -/
def consLoop (n : Nat) (allowDup : Bool) (participants : List String) (versions : List VRow) :
    List ConsAttempt → List (String × String) → List ConsRow → Nat → List ConsRow × Nat
  | [], _, rows, att => (rows, att)
  | a :: rest, used, rows, att =>
    if n ≤ rows.length then (rows, att)
    else
      match consStep participants versions allowDup used a with
      | none => consLoop n allowDup participants versions rest used rows (att + 1)
      | some row =>
        consLoop n allowDup participants versions rest
          ((row.participant_id, row.consent_version_id) :: used) (rows ++ [row]) (att + 1)

/-- `make_rows(participants, versions, n, withdraw_rate, allow_duplicates)`:
empty pools short-circuit to no rows; otherwise the bounded loop runs with
`max_attempts = n * 10`.  Returns the rows and the attempts consumed. -/
def make_rows (participants : List String) (versions : List VRow) (n : Nat)
    (allowDup : Bool) (stream : List ConsAttempt) : List ConsRow × Nat :=
  if participants = [] ∨ versions = [] then ([], 0)
  else consLoop n allowDup participants versions (stream.take (10 * n)) [] [] 0

/-- The key pair of a consent row. -/
def consPair (r : ConsRow) : String × String :=
  (r.participant_id, r.consent_version_id)

/-- The key pair sampled by one attempt of `make_rows`' loop: the chosen
participant and the chosen version's id. -/
def consAttPair (participants : List String) (versions : List VRow)
    (a : ConsAttempt) : String × String :=
  (participants.getD (a.rPid % participants.length) "",
   (versions.getD (a.rVer % versions.length) defaultVRow).consent_version_id)

/-- The signing-window property of one consent row against a version pool:
the row references a pool version whose `effectiveFrom` parsed, and its
`signedAt` lies within `[effectiveFrom, min(effectiveTo, reference date)]`. -/
def consRowOK (versions : List VRow) (row : ConsRow) : Prop :=
  ∃ v ∈ versions, row.consent_version_id = v.consent_version_id ∧
    ∃ f, v.effFrom = some f ∧ f ≤ row.signedAt ∧
      row.signedAt ≤ min (v.effTo.getD todayEnd) todayEnd

/-! ### Input readers and `main` of the file-driven consent generator
(for the error-handling claim).  File contents are modelled post-parse: a CSV
is its optional header plus rows as association lists, a JSON file is either a
list of objects or a list of scalars, and date strings are already the
`parse_dt` results (`Option Int`). -/

/-- The participants file as seen by `read_participant_ids`. -/
inductive PartFile where
  | missing : PartFile
  | jsonDicts : List (List (String × String)) → PartFile
  | jsonStrs : List String → PartFile
  | csv : Option (List String) → List (List (String × String)) → PartFile
deriving DecidableEq

/-- `row.get(key)` on a parsed CSV/JSON object row. -/
def lookupStr (row : List (String × String)) (k : String) : Option String :=
  (row.find? (fun p => p.1 == k)).map Prod.snd

/-- `[row[key] for row in data if row.get(key)]` (a missing or empty value is
falsy and skipped). -/
def extractIds (rows : List (List (String × String))) (key : String) : List String :=
  rows.filterMap fun row =>
    match lookupStr row key with
    | some v => if v = "" then none else some v
    | none => none

/-- `read_participant_ids(path)` of `generate_consent_versions.py`: raising is
modelled as `Except.error` with the raised message. -/
def read_participant_ids (f : PartFile) : Except String (List String) :=
  match f with
  | .missing => .error "participants file not found"
  | .jsonDicts rows =>
    if rows = [] then .ok []
    else
      let first := rows.headD []
      let key := if (first.map Prod.fst).contains "participant_id" then "participant_id" else "id"
      .ok (extractIds rows key)
  | .jsonStrs vals => .ok vals
  | .csv none _ => .error "Participants CSV must include participant_id (or id)."
  | .csv (some fns) rows =>
    if fns.contains "participant_id" = false ∧ fns.contains "id" = false then
      .error "Participants CSV must include participant_id (or id)."
    else
      let key := if fns.contains "participant_id" then "participant_id" else "id"
      .ok (extractIds rows key)

/-- The consent-versions file as seen by `read_consent_versions`, rows already
shaped as `VRow` (ids and parsed dates). -/
inductive VerFile where
  | missing : VerFile
  | json : List VRow → VerFile
  | csv : Option (List String) → List VRow → VerFile
deriving DecidableEq

/-- `read_consent_versions(path)`: missing file and missing CSV columns raise;
otherwise the rows are kept only when their `effectiveFrom` has begun. -/
def read_consent_versions (f : VerFile) : Except String (List VRow) :=
  match f with
  | .missing => .error "consent versions file not found"
  | .json rows => .ok (versionsKeep rows)
  | .csv none _ =>
    .error "Consent versions CSV must include: consent_version_id,effectiveFrom,effectiveTo"
  | .csv (some fns) rows =>
    if fns.contains "consent_version_id" ∧ fns.contains "effectiveFrom" ∧
        fns.contains "effectiveTo" then
      .ok (versionsKeep rows)
    else
      .error "Consent versions CSV must include: consent_version_id,effectiveFrom,effectiveTo"

/-- `main()` of `generate_consent_versions.py` up to (and excluding) the file
write: load participants, abort if none; load versions, abort if none; then
generate.  `.ok rows` is the state in which the output file gets written. -/
def consentMain (pf : PartFile) (vf : VerFile) (n : Nat) (allowDup : Bool)
    (stream : List ConsAttempt) : Except String (List ConsRow) :=
  match read_participant_ids pf with
  | .error e => .error e
  | .ok participants =>
    if participants = [] then .error "No participants found."
    else
      match read_consent_versions vf with
      | .error e => .error e
      | .ok versions =>
        if versions = [] then .error "No consent versions found (or all are future-only)."
        else .ok (make_rows participants versions n allowDup stream).1

/-! ## Standalone consent generator (`generate_participant_consents.py`) -/

/-- `SIGNED_WINDOW_DAYS`. -/
def SIGNED_WINDOW_DAYS : Int := 540

/-- `WITHDRAW_MAX_DAYS_AFTER_SIGN`. -/
def WITHDRAW_MAX_DAYS_AFTER_SIGN : Int := 240

/-- `make_participant_consent_row(pid, cvid, withdraw_rate)` reduced to its
timestamp content `(signedAt, withdrawnAt)`; the `random.random() <
withdraw_rate` coin is the explicit `hit` flag. -/
def make_participant_consent_row (rSigned : Nat) (hit : Bool) (rWithdraw : Nat) :
    Int × Option Int :=
  let signed := rand_dt_between (todayStart - SIGNED_WINDOW_DAYS * 86400) todayEnd rSigned
  let withdrawn : Option Int :=
    if hit then
      let latest := min (signed + WITHDRAW_MAX_DAYS_AFTER_SIGN * 86400) todayEnd
      if signed < latest then some (rand_dt_between (signed + 60) latest rWithdraw)
      else none
    else none
  (signed, withdrawn)

/-! ## Session generator (`generate_sessions.py`) -/

/-- The random draws for one scheduling attempt of `pick_times_for_room`. -/
structure TryRnd where
  rDay : Nat
  rHour : Nat
  rSlot : Nat
  rDur : Nat
deriving DecidableEq

/-- `random_start_dt()`: `randint(-DAYS_PAST, DAYS_FUTURE)` days,
`randint(START_HOUR_MIN, START_HOUR_MAX)` hours, a quarter-hour slot. -/
def random_start_dt (t : TryRnd) : Int :=
  let day : Int := -10 + Int.ofNat (t.rDay % 71)
  let hour : Int := 8 + Int.ofNat (t.rHour % 12)
  let minute : Int := [0, 15, 30, 45].getD (t.rSlot % 4) 0
  todayStart + day * 86400 + hour * 3600 + minute * 60

/-- `random.randint(DURATION_MIN, DURATION_MAX)` minutes. -/
def sessionDuration (t : TryRnd) : Int :=
  45 + Int.ofNat (t.rDur % 76)

/-- One candidate `(start, end)` interval. -/
def candidateTimes (t : TryRnd) : Int × Int :=
  let start := random_start_dt t
  (start, start + sessionDuration t * 60)

/-- `overlaps(a_start, a_end, b_start, b_end)`. -/
def overlaps (aS aE bS bE : Int) : Bool :=
  !(decide (aE ≤ bS) || decide (bE ≤ aS))

/-- `pick_times_for_room(existing)`: try the candidates in order (the source
tries 20), returning the first one that overlaps no existing interval of the
room; if every try overlaps, the last candidate is accepted anyway. -/
def pick_times_for_room (existing : List (Int × Int)) : TryRnd → List TryRnd → Int × Int
  | t, rest =>
    let c := candidateTimes t
    if existing.all (fun p => !overlaps c.1 c.2 p.1 p.2) then c
    else
      match rest with
      | [] => c
      | t2 :: rest2 => pick_times_for_room existing t2 rest2

/-- An output Session row. -/
structure SessRow where
  study_id : String
  room_id : String
  startTs : Int
  endTs : Int
  capacity : Int
deriving DecidableEq

/-- The session-capacity choice of `make_row`: a truthy room capacity bounds
the session capacity, otherwise `randint(*ROOM_CAP_FALLBACK)`. -/
def sessionCapacity (roomCap : Option Int) (r : Nat) : Int :=
  match roomCap with
  | some c =>
    if c ≠ 0 then
      let cap_hi := max 2 c
      let lo := max 2 (min 6 cap_hi)
      lo + Int.ofNat (r % ((cap_hi - lo).toNat + 1))
    else 18 + Int.ofNat (r % 43)
  | none => 18 + Int.ofNat (r % 43)

/-- `make_row(study_id, room, room_schedules)` for one room: pick times
against the room's schedule, append the interval to the schedule, and fill in
the capacity. -/
def make_row (study_id room_id : String) (roomCap : Option Int)
    (sched : List (Int × Int)) (t : TryRnd) (rest : List TryRnd) (rCap : Nat) :
    SessRow × List (Int × Int) :=
  let se := pick_times_for_room sched t rest
  ({ study_id := study_id, room_id := room_id, startTs := se.1, endTs := se.2,
     capacity := sessionCapacity roomCap rCap }, sched ++ [se])

/-! ## StudyResearcher generator (`generate_study_researchers.py`) -/

/-- An output StudyResearcher row. -/
structure SR where
  study_id : String
  researcher_id : String
  role : String
deriving DecidableEq

/-- `random.shuffle` modelled as repeated extraction at random indices driven
by a stream of naturals (a permutation for any stream; the stream exhausting
leaves the tail in place). -/
def shuffle {α : Type} : List α → List Nat → List α
  | [], _ => []
  | l, [] => l
  | a :: l, r :: rs =>
    let i := r % (a :: l).length
    (a :: l).getD i a :: shuffle ((a :: l).eraseIdx i) rs

/-- `pick_unique(researchers, forbid, k)`: shuffle the not-forbidden
researchers and take the first `k`. -/
def pick_unique (researchers : List String) (forbid : List String) (k : Nat)
    (shuf : List Nat) : List String :=
  (shuffle (researchers.filter (fun rid => decide (rid ∉ forbid))) shuf).take k

/-- `COORD_CHOICES` zipped with `COORD_WEIGHTS` (floats scaled by 100). -/
def COORD_DIST : List (Nat × Nat) := [(0, 60), (1, 30), (2, 10)]

/-- The random draws consumed for one study in `baseline_assignments`. -/
structure StudyRnd where
  shufPI : List Nat
  rCoord : Nat
  shufCoord : List Nat
  rRA : Nat
  shufRA : List Nat
deriving DecidableEq

/-- Default draws used when the modelled random stream is exhausted. -/
def defaultStudyRnd : StudyRnd := ⟨[], 0, [], 0, []⟩

/-- The per-study body of `baseline_assignments`: `max(1, pi_per_study)` PIs,
a weighted number of coordinators, `randint(ra_min, ra_max)` RAs, all distinct
within the study. -/
def studyRows (researchers : List String) (pi_per_study ra_min ra_max : Nat)
    (sid : String) (rnd : StudyRnd) : List SR :=
  let pis := pick_unique researchers [] (max 1 pi_per_study) rnd.shufPI
  let piRows := pis.map fun rid => SR.mk sid rid "PI"
  let k_coord := pick_weighted COORD_DIST rnd.rCoord
  let coords := pick_unique researchers pis k_coord rnd.shufCoord
  let coordRows := coords.map fun rid => SR.mk sid rid "coordinator"
  let k_ra := ra_min + rnd.rRA % (ra_max - ra_min + 1)
  let ras := pick_unique researchers (pis ++ coords) k_ra rnd.shufRA
  let raRows := ras.map fun rid => SR.mk sid rid "RA"
  piRows ++ coordRows ++ raRows

/-- `baseline_assignments(studies, researchers, ...)`: one block of rows per
study, in study order. -/
def baseline_assignments (researchers : List String) (pi_per_study ra_min ra_max : Nat) :
    List String → List StudyRnd → List SR
  | [], _ => []
  | sid :: rest, [] =>
    studyRows researchers pi_per_study ra_min ra_max sid defaultStudyRnd ++
      baseline_assignments researchers pi_per_study ra_min ra_max rest []
  | sid :: rest, rnd :: rnds =>
    studyRows researchers pi_per_study ra_min ra_max sid rnd ++
      baseline_assignments researchers pi_per_study ra_min ra_max rest rnds

/-- `TOPUP_ROLE_WEIGHTS` (floats scaled by 100). -/
def TOPUP_ROLES : List (String × Nat) := [("RA", 80), ("coordinator", 15), ("PI", 5)]

/-- One iteration of `top_up_to_target`'s loop. -/
structure TopAttempt where
  rStudy : Nat
  rRes : Nat
  rRole : Nat
deriving DecidableEq

/-- The bounded pairing loop of `top_up_to_target`. -/
def topUpLoop (target : Nat) (studies researchers : List String) :
    List TopAttempt → List (String × String) → List SR → List SR
  | [], _, rows => rows
  | a :: rest, used, rows =>
    if target ≤ rows.length then rows
    else
      let sid := studies.getD (a.rStudy % studies.length) ""
      let rid := researchers.getD (a.rRes % researchers.length) ""
      if (sid, rid) ∈ used then topUpLoop target studies researchers rest used rows
      else
        topUpLoop target studies researchers rest ((sid, rid) :: used)
          (rows ++ [SR.mk sid rid (pick_weighted TOPUP_ROLES a.rRole)])

/-- `top_up_to_target(rows, target_n, studies, researchers, role_weights)`:
no-op when the target is absent or met, else the pairing loop with
`max_attempts = (target_n - len(rows)) * 20`. -/
def top_up_to_target (rows : List SR) (target : Nat) (studies researchers : List String)
    (stream : List TopAttempt) : List SR :=
  if target = 0 ∨ target ≤ rows.length then rows
  else
    topUpLoop target studies researchers (stream.take ((target - rows.length) * 20))
      (rows.map fun r => (r.study_id, r.researcher_id)) rows

/-- The row-building part of `generate_study_researchers.main`: the baseline
per-study assignment, topped up when `--n` asks for more rows. -/
def runStudyResearchers (studies researchers : List String)
    (pi_per_study ra_min ra_max n : Nat) (rnds : List StudyRnd)
    (stream : List TopAttempt) : List SR :=
  let rows := baseline_assignments researchers pi_per_study ra_min ra_max studies rnds
  if n ≠ 0 ∧ rows.length < n then top_up_to_target rows n studies researchers stream
  else rows

/-! ## Lemmas about the shared sampling helpers -/

theorem rand_dt_between_ge (a b : Int) (r : Nat) : min a b ≤ rand_dt_between a b r := by
  simp only [rand_dt_between, Int.ofNat_eq_natCast]
  omega

theorem rand_dt_between_le (a b : Int) (r : Nat) : rand_dt_between a b r ≤ max a b := by
  simp only [rand_dt_between, Int.ofNat_eq_natCast]
  have h1 : r % ((max a b - min a b).toNat + 1) < (max a b - min a b).toNat + 1 :=
    Nat.mod_lt _ (Nat.succ_pos _)
  have h2 : min a b ≤ max a b := min_le_max
  omega

theorem pickWeightedGo_mem {α : Type} [Inhabited α] :
    ∀ (ws : List (α × Nat)) (t : Nat), t < weightSum ws →
      ∃ p ∈ ws, 0 < p.2 ∧ pickWeightedGo ws t = p.1 := by
  intro ws
  induction ws with
  | nil => intro t ht; simp [weightSum] at ht
  | cons hd tl ih =>
    obtain ⟨a, w⟩ := hd
    intro t ht
    by_cases h : t < w
    · exact ⟨(a, w), List.mem_cons_self _ _, by omega, by simp [pickWeightedGo, h]⟩
    · have ht' : t - w < weightSum tl := by
        simp only [weightSum, List.map_cons, List.sum_cons] at ht
        simp only [weightSum]
        omega
      obtain ⟨p, hp, hw, he⟩ := ih (t - w) ht'
      exact ⟨p, List.mem_cons_of_mem _ hp, hw, by simp [pickWeightedGo, h, he]⟩

theorem pick_weighted_mem {α : Type} [Inhabited α] (ws : List (α × Nat)) (r : Nat)
    (h : 0 < weightSum ws) :
    ∃ p ∈ ws, 0 < p.2 ∧ pick_weighted ws r = p.1 :=
  pickWeightedGo_mem ws _ (Nat.mod_lt _ h)

/-! ## Enrollment loop invariants -/

theorem build_of_mem (pid : String) (sess : Sess) (st : EState) (rnd : Rnd)
    (h : (pid, sess.session_id) ∈ st.used_pairs) :
    build_enrollment_for pid sess st rnd = (none, st) := by
  simp [build_enrollment_for, h]

theorem build_of_not_mem (pid : String) (sess : Sess) (st : EState) (rnd : Rnd)
    (h : (pid, sess.session_id) ∉ st.used_pairs) :
    build_enrollment_for pid sess st rnd =
      (some (enrRow pid sess st rnd), enrState pid sess st rnd) := by
  simp [build_enrollment_for, h]

theorem enrPair_enrRow (pid : String) (sess : Sess) (st : EState) (rnd : Rnd) :
    enrPair (enrRow pid sess st rnd) = (pid, sess.session_id) := rfl

theorem enrState_used (pid : String) (sess : Sess) (st : EState) (rnd : Rnd) :
    (enrState pid sess st rnd).used_pairs = (pid, sess.session_id) :: st.used_pairs := rfl

theorem nodup_snoc {α : Type} {l : List α} {x : α} (h1 : l.Nodup) (h2 : x ∉ l) :
    (l ++ [x]).Nodup := by
  simp [List.nodup_append, h1, h2]

theorem enrollLoop_nodup (n : Nat) :
    ∀ (l : List Attempt) (st : EState) (rows : List Enr) (att : Nat),
      (rows.map enrPair).Nodup →
      (∀ p ∈ rows.map enrPair, p ∈ st.used_pairs) →
      ((enrollLoop n l st rows att).1.map enrPair).Nodup := by
  intro l
  induction l with
  | nil => intro st rows att h1 _; simpa [enrollLoop] using h1
  | cons a rest ih =>
    intro st rows att h1 h2
    simp only [enrollLoop]
    by_cases hn : n ≤ rows.length
    · simpa [if_pos hn] using h1
    · simp only [if_neg hn]
      by_cases hmem : (a.pid, a.sess.session_id) ∈ st.used_pairs
      · simp only [build_of_mem _ _ _ _ hmem]
        exact ih st rows (att + 1) h1 h2
      · simp only [build_of_not_mem _ _ _ _ hmem]
        apply ih
        · rw [List.map_append]
          refine nodup_snoc h1 ?_
          intro hx
          exact hmem (h2 _ hx)
        · intro p hp
          rw [List.map_append] at hp
          rcases List.mem_append.mp hp with hp | hp
          · exact List.mem_cons_of_mem _ (h2 _ hp)
          · rw [enrState_used]
            simp only [List.map_cons, List.map_nil, List.mem_singleton] at hp
            rw [hp, enrPair_enrRow]
            exact List.mem_cons_self _ _

theorem enrollLoop_length_le (n : Nat) :
    ∀ (l : List Attempt) (st : EState) (rows : List Enr) (att : Nat),
      rows.length ≤ n → (enrollLoop n l st rows att).1.length ≤ n := by
  intro l
  induction l with
  | nil => intro st rows att h; simpa [enrollLoop] using h
  | cons a rest ih =>
    intro st rows att h
    simp only [enrollLoop]
    by_cases hn : n ≤ rows.length
    · simpa [if_pos hn] using h
    · simp only [if_neg hn]
      by_cases hmem : (a.pid, a.sess.session_id) ∈ st.used_pairs
      · simp only [build_of_mem _ _ _ _ hmem]
        exact ih _ _ _ h
      · simp only [build_of_not_mem _ _ _ _ hmem]
        refine ih _ _ _ ?_
        simp only [List.length_append, List.length_singleton]
        omega

theorem enrollLoop_att_le (n : Nat) :
    ∀ (l : List Attempt) (st : EState) (rows : List Enr) (att : Nat),
      (enrollLoop n l st rows att).2 ≤ att + l.length := by
  intro l
  induction l with
  | nil => intro st rows att; simp [enrollLoop]
  | cons a rest ih =>
    intro st rows att
    simp only [enrollLoop, List.length_cons]
    by_cases hn : n ≤ rows.length
    · simp only [if_pos hn]
      omega
    · simp only [if_neg hn]
      by_cases hmem : (a.pid, a.sess.session_id) ∈ st.used_pairs
      · simp only [build_of_mem _ _ _ _ hmem]
        have := ih st rows (att + 1)
        omega
      · simp only [build_of_not_mem _ _ _ _ hmem]
        have := ih (enrState a.pid a.sess st a.rnd) (rows ++ [enrRow a.pid a.sess st a.rnd]) (att + 1)
        omega

theorem enrollLoop_pairs_subset (n : Nat) :
    ∀ (l : List Attempt) (st : EState) (rows : List Enr) (att : Nat),
      ∀ p ∈ (enrollLoop n l st rows att).1.map enrPair,
        p ∈ rows.map enrPair ∨ p ∈ l.map attPair := by
  intro l
  induction l with
  | nil => intro st rows att p hp; simp only [enrollLoop] at hp; exact Or.inl hp
  | cons a rest ih =>
    intro st rows att p hp
    simp only [enrollLoop] at hp
    by_cases hn : n ≤ rows.length
    · rw [if_pos hn] at hp; exact Or.inl hp
    · rw [if_neg hn] at hp
      by_cases hmem : (a.pid, a.sess.session_id) ∈ st.used_pairs
      · rw [build_of_mem _ _ _ _ hmem] at hp
        rcases ih _ _ _ _ hp with h | h
        · exact Or.inl h
        · exact Or.inr (List.mem_cons_of_mem _ h)
      · rw [build_of_not_mem _ _ _ _ hmem] at hp
        rcases ih _ _ _ _ hp with h | h
        · rw [List.map_append] at h
          rcases List.mem_append.mp h with h | h
          · exact Or.inl h
          · simp only [List.map_cons, List.map_nil, List.mem_singleton] at h
            rw [h, enrPair_enrRow]
            exact Or.inr (List.mem_cons_self _ _)
        · exact Or.inr (List.mem_cons_of_mem _ h)

/-- C1: within one run of the enrollment generator no
(participant_id, session_id) pair appears twice among the output rows;
`build_enrollment_for` returns `none` whenever the candidate pair is already
in the used-pairs set and records each accepted pair. -/
theorem enrollment_pair_uniqueness :
    (∀ (n : Nat) (stream : List Attempt),
      ((runEnrollments n stream).1.map enrPair).Nodup) ∧
    (∀ (pid : String) (sess : Sess) (st : EState) (rnd : Rnd),
      (pid, sess.session_id) ∈ st.used_pairs →
      (build_enrollment_for pid sess st rnd).1 = none) := by
  constructor
  · intro n stream
    exact enrollLoop_nodup n _ _ _ _ (by simp) (by simp)
  · intro pid sess st rnd h
    rw [build_of_mem _ _ _ _ h]

/-- Witness for C1 at a concrete run: three attempts, two of them the same
pair, give two rows with distinct pairs, and the duplicate call returns
`none`. -/
theorem enrollment_pair_uniqueness_witness :
    ((runEnrollments 3 [⟨"p1", ⟨"s", none, none, none⟩, ⟨0, 0, 0⟩⟩,
        ⟨"p1", ⟨"s", none, none, none⟩, ⟨1, 1, 1⟩⟩,
        ⟨"p2", ⟨"s", none, none, none⟩, ⟨2, 2, 2⟩⟩]).1.map enrPair).Nodup ∧
    (build_enrollment_for "p1" ⟨"s", none, none, none⟩ ⟨[("p1", "s")], []⟩ ⟨0, 0, 0⟩).1 = none :=
  ⟨enrollment_pair_uniqueness.1 3 _,
   enrollment_pair_uniqueness.2 "p1" ⟨"s", none, none, none⟩ ⟨[("p1", "s")], []⟩ ⟨0, 0, 0⟩
     (by decide)⟩

/-! ## Capacity tracking (claim C2) -/

theorem lookupNat_set_eq (m : List (String × Nat)) (k : String) (v : Nat) :
    lookupNat (setNat m k v) k = v := by
  simp [lookupNat, setNat]

theorem lookupNat_set_ne (m : List (String × Nat)) (k k' : String) (v : Nat) (h : k ≠ k') :
    lookupNat (setNat m k v) k' = lookupNat m k' := by
  simp [lookupNat, setNat, List.find?_cons, h]

theorem seatCount_append_one (s : String) (rows : List Enr) (row : Enr) :
    seatCount s (rows ++ [row]) =
      seatCount s rows + (if row.session_id = s ∧ row.status ∈ seatStatuses then 1 else 0) := by
  simp only [seatCount, List.filter_append, List.length_append]
  congr 1
  by_cases h : row.session_id = s ∧ row.status ∈ seatStatuses
  · simp [h]
  · simp [h]

theorem mem_seatStatuses_ne_waitlisted {x : String} (h : x ∈ seatStatuses) :
    x ≠ "waitlisted" := by
  simp only [seatStatuses, List.mem_cons, List.not_mem_nil, or_false] at h
  rcases h with h | h | h <;> subst h <;> decide

theorem seatAvailable_of_status_ne (sess : Sess) (st : EState) (r : Nat)
    (h : enrStatus sess st r ≠ "waitlisted") : seatAvailable sess st = true := by
  cases hsa : seatAvailable sess st
  · exact absurd (by simp [enrStatus, hsa]) h
  · rfl

theorem taken_lt_of_seatAvailable (sess : Sess) (st : EState) (c : Int)
    (hcap : sess.capacity = some c) (h : seatAvailable sess st = true) :
    (lookupNat st.session_used sess.session_id : Int) < max 0 c := by
  simp only [seatAvailable, hcap, decide_eq_true_eq] at h
  exact h

theorem seatPosOK_snoc (s : String) (cap : Int) (rows : List Enr) (row : Enr)
    (hpos : seatPosOK s cap rows)
    (hnew : row.session_id = s → row.status ≠ "waitlisted" →
      (seatCount s rows : Int) < cap) :
    seatPosOK s cap (rows ++ [row]) := by
  intro i h hs hw
  rcases Nat.lt_or_ge i rows.length with hi | hi
  · have e1 : (rows ++ [row]).get ⟨i, h⟩ = rows.get ⟨i, hi⟩ := List.get_append i hi
    have e2 : (rows ++ [row]).take i = rows.take i :=
      List.take_append_of_le_length (le_of_lt hi)
    rw [e1] at hs hw
    rw [e2]
    exact hpos i hi hs hw
  · have hlen : i < rows.length + 1 := by simpa [List.length_append] using h
    have hi2 : i = rows.length := by omega
    subst hi2
    have e1 : (rows ++ [row]).get ⟨rows.length, h⟩ = row := by
      rw [List.get_append_right] <;> simp
    have e2 : (rows ++ [row]).take rows.length = rows := List.take_left rows [row]
    rw [e1] at hs hw
    rw [e2]
    exact hnew hs hw

theorem enrollLoop_capacity (n : Nat) (s : String) (c : Int) :
    ∀ (l : List Attempt) (st : EState) (rows : List Enr) (att : Nat),
      (∀ a ∈ l, a.sess.session_id = s → a.sess.capacity = some c) →
      lookupNat st.session_used s = seatCount s rows →
      ((seatCount s rows : Int) ≤ max 0 c) →
      seatPosOK s (max 0 c) rows →
      ((seatCount s (enrollLoop n l st rows att).1 : Int) ≤ max 0 c) ∧
      seatPosOK s (max 0 c) (enrollLoop n l st rows att).1 := by
  intro l
  induction l with
  | nil =>
    intro st rows att _ _ h3 h4
    exact ⟨by simpa [enrollLoop] using h3, by simpa [enrollLoop] using h4⟩
  | cons a rest ih =>
    intro st rows att hcap hlk hle hpos
    simp only [enrollLoop]
    by_cases hn : n ≤ rows.length
    · exact ⟨by simpa [if_pos hn] using hle, by simpa [if_pos hn] using hpos⟩
    · simp only [if_neg hn]
      by_cases hmem : (a.pid, a.sess.session_id) ∈ st.used_pairs
      · simp only [build_of_mem _ _ _ _ hmem]
        exact ih st rows (att + 1) (fun x hx => hcap x (List.mem_cons_of_mem _ hx)) hlk hle hpos
      · simp only [build_of_not_mem _ _ _ _ hmem]
        have hcap' : ∀ x ∈ rest, x.sess.session_id = s → x.sess.capacity = some c :=
          fun x hx => hcap x (List.mem_cons_of_mem _ hx)
        by_cases hsid : a.sess.session_id = s
        · have hcapa : a.sess.capacity = some c := hcap a (List.mem_cons_self _ _) hsid
          by_cases hseat : enrStatus a.sess st a.rnd.rStatus ∈ seatStatuses
          · -- a seat-occupying row for session s is appended
            have hnw : enrStatus a.sess st a.rnd.rStatus ≠ "waitlisted" :=
              mem_seatStatuses_ne_waitlisted hseat
            have hsa : seatAvailable a.sess st = true :=
              seatAvailable_of_status_ne a.sess st a.rnd.rStatus hnw
            have hlt : (seatCount s rows : Int) < max 0 c := by
              have := taken_lt_of_seatAvailable a.sess st c hcapa hsa
              rw [hsid, hlk] at this
              exact this
            have hcount : seatCount s (rows ++ [enrRow a.pid a.sess st a.rnd]) =
                seatCount s rows + 1 := by
              rw [seatCount_append_one]
              simp [enrRow, hsid, hseat]
            refine ih (enrState a.pid a.sess st a.rnd) _ (att + 1) hcap' ?_ ?_ ?_
            · show lookupNat (enrSessionUsed a.sess st (enrStatus a.sess st a.rnd.rStatus)) s = _
              rw [hcount]
              simp only [enrSessionUsed, if_pos (And.intro hsa hseat)]
              rw [hsid, lookupNat_set_eq, hlk]
            · rw [hcount]
              push_cast
              omega
            · exact seatPosOK_snoc _ _ _ _ hpos (fun _ _ => hlt)
          · -- a non-seat row; the counts and the dict are unchanged
            have hcount : seatCount s (rows ++ [enrRow a.pid a.sess st a.rnd]) =
                seatCount s rows := by
              rw [seatCount_append_one]
              simp [enrRow, hseat]
            refine ih (enrState a.pid a.sess st a.rnd) _ (att + 1) hcap' ?_ ?_ ?_
            · show lookupNat (enrSessionUsed a.sess st (enrStatus a.sess st a.rnd.rStatus)) s = _
              rw [hcount]
              simp only [enrSessionUsed]
              rw [if_neg (by intro hx; exact hseat hx.2), hlk]
            · rw [hcount]; exact hle
            · refine seatPosOK_snoc _ _ _ _ hpos ?_
              intro _ hw
              have hsa : seatAvailable a.sess st = true :=
                seatAvailable_of_status_ne a.sess st a.rnd.rStatus (by simpa [enrRow] using hw)
              have := taken_lt_of_seatAvailable a.sess st c hcapa hsa
              rw [hsid, hlk] at this
              exact this
        · -- the appended row belongs to a different session
          have hcount : seatCount s (rows ++ [enrRow a.pid a.sess st a.rnd]) =
              seatCount s rows := by
            rw [seatCount_append_one]
            simp [enrRow, hsid]
          refine ih (enrState a.pid a.sess st a.rnd) _ (att + 1) hcap' ?_ ?_ ?_
          · show lookupNat (enrSessionUsed a.sess st (enrStatus a.sess st a.rnd.rStatus)) s = _
            rw [hcount]
            simp only [enrSessionUsed]
            by_cases hc2 : seatAvailable a.sess st = true ∧
                enrStatus a.sess st a.rnd.rStatus ∈ seatStatuses
            · rw [if_pos hc2, lookupNat_set_ne _ _ _ _ hsid, hlk]
            · rw [if_neg hc2, hlk]
          · rw [hcount]; exact hle
          · refine seatPosOK_snoc _ _ _ _ hpos ?_
            intro hs2 _
            exact absurd (by simpa [enrRow] using hs2) hsid

/-- C2: for a session `s` of known capacity `c ≥ 0`, a run produces at most
`c` seat-occupying rows (enrolled/attended/no_show) for `s`, and every
non-waitlisted row for `s` was emitted while fewer than `c` seats were taken
— once `c` seats are taken, every further row for `s` is "waitlisted". -/
theorem session_capacity_respected (n : Nat) (stream : List Attempt) (s : String) (c : Int)
    (hc : 0 ≤ c)
    (hcap : ∀ a ∈ stream, a.sess.session_id = s → a.sess.capacity = some c) :
    ((seatCount s (runEnrollments n stream).1 : Int) ≤ c) ∧
    seatPosOK s c (runEnrollments n stream).1 := by
  have hmax : max 0 c = c := max_eq_right hc
  rw [← hmax]
  refine enrollLoop_capacity n s c _ _ _ _ ?_ rfl ?_ ?_
  · intro a ha h
    exact hcap a (List.mem_of_mem_take ha) h
  · simpa [seatCount] using le_max_left (0 : Int) c
  · intro i h
    simp at h

/-- Witness for C2: 25 attempts (distinct participants) against a single
session of capacity 20 yield at most 20 seat-occupying rows, the rest
waitlisted. -/
theorem session_capacity_respected_witness :
    ((seatCount "s" (runEnrollments 25
        ((List.range 25).map fun i =>
          ⟨toString i, ⟨"s", none, none, some 20⟩, ⟨0, 0, 0⟩⟩)).1 : Int) ≤ 20) ∧
    seatPosOK "s" 20 (runEnrollments 25
        ((List.range 25).map fun i =>
          ⟨toString i, ⟨"s", none, none, some 20⟩, ⟨0, 0, 0⟩⟩)).1 :=
  session_capacity_respected 25 _ "s" 20 (by decide) (by decide)

/-! ## Enrollment timestamps (claim C6) -/

theorem enrWindow_fst_lt_snd (sess : Sess) : (enrWindow sess).1 < (enrWindow sess).2 := by
  simp only [enrWindow]
  by_cases h : min (sessStart sess - 3600) todayEnd ≤ sessStart sess - 90 * 86400
  · simp only [if_pos h]
    omega
  · simp only [if_neg h]
    omega

theorem enrWindow_snd_le (sess : Sess) :
    (enrWindow sess).2 ≤ sessStart sess - 1800 := by
  simp only [enrWindow]
  by_cases h : min (sessStart sess - 3600) todayEnd ≤ sessStart sess - 90 * 86400
  · simp only [if_pos h]
    omega
  · simp only [if_neg h]
    omega

theorem enrCreated_le (sess : Sess) (r : Nat) :
    enrCreated sess r ≤ sessStart sess - 1800 := by
  have h1 := rand_dt_between_le (enrWindow sess).1 (enrWindow sess).2 r
  have h2 := enrWindow_fst_lt_snd sess
  have h3 := enrWindow_snd_le sess
  show rand_dt_between (enrWindow sess).1 (enrWindow sess).2 r ≤ _
  omega

theorem enrStatus_past_of_outcome (sess : Sess) (st : EState) (r : Nat)
    (h : enrStatus sess st r = "attended" ∨ enrStatus sess st r = "no_show") :
    sessEnd sess ≤ todayEnd := by
  by_cases hsa : seatAvailable sess st = true
  · by_cases hp : sessEnd sess ≤ todayEnd
    · exact hp
    · exfalso
      have he : enrStatus sess st r = pick_weighted STATUS_WEIGHTS_FUTURE r := by
        simp [enrStatus, hsa, hp]
      obtain ⟨p, hp2, hw, hpe⟩ := pick_weighted_mem STATUS_WEIGHTS_FUTURE r (by decide)
      rw [he, hpe] at h
      simp only [STATUS_WEIGHTS_FUTURE, List.mem_cons, List.not_mem_nil, or_false] at hp2
      rcases hp2 with h2 | h2 | h2 | h2 | h2 <;> subst h2 <;> simp_all
  · exfalso
    have he : enrStatus sess st r = "waitlisted" := by simp [enrStatus, hsa]
    rw [he] at h
    simp at h

theorem enr_created_le_updated (sess : Sess) (st : EState) (rnd : Rnd)
    (hse : sessStart sess ≤ sessEnd sess) :
    enrCreated sess rnd.rCreated ≤
      enrUpdated sess (enrStatus sess st rnd.rStatus)
        (enrCreated sess rnd.rCreated) rnd.rUpdated := by
  set created := enrCreated sess rnd.rCreated with hc
  set status := enrStatus sess st rnd.rStatus with hs
  simp only [enrUpdated]
  by_cases h1 : status = "cancelled"
  · simp only [if_pos h1]
    by_cases h2 : min (sessStart sess - 600) todayEnd ≤ created
    · simp only [if_pos h2]
      have := rand_dt_between_ge (created + 60) (created + 300) rnd.rUpdated
      omega
    · simp only [if_neg h2]
      have := rand_dt_between_ge (created + 60)
        (min (sessStart sess - 600) todayEnd) rnd.rUpdated
      omega
  · simp only [if_neg h1]
    by_cases h2 : status = "attended" ∨ status = "no_show"
    · simp only [if_pos h2]
      have hpast : sessEnd sess ≤ todayEnd :=
        enrStatus_past_of_outcome sess st rnd.rStatus (hs ▸ h2)
      simp only [if_pos hpast]
      have := rand_dt_between_ge (sessEnd sess)
        (min (sessEnd sess + 3 * 3600) todayEnd) rnd.rUpdated
      have hcle : created ≤ sessStart sess - 1800 := enrCreated_le sess rnd.rCreated
      omega
    · simp only [if_neg h2]
      by_cases h3 : min todayEnd (sessStart sess) ≤ created
      · simp only [if_pos h3]
        have := rand_dt_between_ge created (created + 300) rnd.rUpdated
        omega
      · simp only [if_neg h3]
        have := rand_dt_between_ge created (min todayEnd (sessStart sess)) rnd.rUpdated
        omega

/-- C6 is false as stated ("for any session start/end timestamps"): a session
whose file-supplied `endTs` lies far before its `startTs` (here: start ten
days ahead of the reference date, end at the reference midnight) takes the
attended/no_show branch, which anchors `updated_at` just after the session
end while `created_at` is anchored shortly before the (much later) start, so
`updated_at < created_at`. -/
theorem enrollment_timestamps_counterexample :
    (build_enrollment_for "p" ⟨"s", some 8640000, some 0, none⟩ ⟨[], []⟩ ⟨0, 0, 0⟩).1 =
      some { participant_id := "p", session_id := "s", status := "attended",
             created_at := 8551800, updated_at := 0 } ∧
    ¬ ((8551800 : Int) ≤ (0 : Int)) := by decide

/-- C6 (amended): for every enrollment row produced by
`build_enrollment_for`, `created_at ≤ updated_at` holds whenever the
session's effective start does not lie after its effective end (in
particular for missing timestamps and for all rows of the session
generator, which always emits `startTs < endTs`). -/
theorem enrollment_created_le_updated (pid : String) (sess : Sess) (st : EState)
    (rnd : Rnd) (row : Enr) (hse : sessStart sess ≤ sessEnd sess)
    (hb : (build_enrollment_for pid sess st rnd).1 = some row) :
    row.created_at ≤ row.updated_at := by
  by_cases hmem : (pid, sess.session_id) ∈ st.used_pairs
  · rw [build_of_mem _ _ _ _ hmem] at hb
    exact absurd hb (by simp)
  · rw [build_of_not_mem _ _ _ _ hmem] at hb
    have hrow : enrRow pid sess st rnd = row := by simpa using hb
    rw [← hrow]
    exact enr_created_le_updated sess st rnd hse

/-- Witness for the amended C6 at a concrete accepted row. -/
theorem enrollment_created_le_updated_witness :
    ({ participant_id := "p", session_id := "s", status := "enrolled",
       created_at := -7171200, updated_at := -7171200 } : Enr).created_at ≤
      ({ participant_id := "p", session_id := "s", status := "enrolled",
         created_at := -7171200, updated_at := -7171200 } : Enr).updated_at :=
  enrollment_created_le_updated "p" ⟨"s", none, none, none⟩ ⟨[], []⟩ ⟨0, 0, 0⟩ _
    (by decide) (by decide)

/-! ## File-driven consent generator: signing windows (claim C5) -/

theorem pick_signed_bounds (effFrom : Int) (effTo : Option Int) (r : Nat) {s : Int}
    (h : pick_signed effFrom effTo r = some s) :
    effFrom ≤ s ∧ s ≤ min (effTo.getD todayEnd) todayEnd := by
  simp only [pick_signed, Int.ofNat_eq_natCast] at h
  by_cases he : min (effTo.getD todayEnd) todayEnd < effFrom
  · rw [if_pos he] at h
    simp at h
  · rw [if_neg he] at h
    simp only [Option.some.injEq] at h
    have h3 : r % ((min (effTo.getD todayEnd) todayEnd - effFrom).toNat + 1) <
        (min (effTo.getD todayEnd) todayEnd - effFrom).toNat + 1 :=
      Nat.mod_lt _ (Nat.succ_pos _)
    omega

theorem mem_versionsKeep {vs : List VRow} {v : VRow} (h : v ∈ versionsKeep vs) :
    v ∈ vs ∧ ∃ f, v.effFrom = some f ∧ f ≤ todayEnd := by
  simp only [versionsKeep, List.mem_filter] at h
  obtain ⟨hmem, hcond⟩ := h
  refine ⟨hmem, ?_⟩
  cases hf : v.effFrom with
  | none => rw [hf] at hcond; simp at hcond
  | some f =>
    rw [hf] at hcond
    simp only [decide_eq_true_eq] at hcond
    exact ⟨f, rfl, hcond⟩

theorem consStep_ok (participants : List String) (versions : List VRow) (allowDup : Bool)
    (used : List (String × String)) (a : ConsAttempt) (hne : versions ≠ [])
    {row : ConsRow} (h : consStep participants versions allowDup used a = some row) :
    consRowOK versions row := by
  simp only [consStep] at h
  set v := versions.getD (a.rVer % versions.length) defaultVRow with hv
  by_cases hdup : allowDup = false ∧
      (participants.getD (a.rPid % participants.length) "", v.consent_version_id) ∈ used
  · rw [if_pos hdup] at h
    simp at h
  · rw [if_neg hdup] at h
    split at h
    · simp at h
    · rename_i f hf
      split at h
      · simp at h
      · rename_i signed hs
        simp only [Option.some.injEq] at h
        have hmem : v ∈ versions := by
          rw [hv, List.getD_eq_getElem versions defaultVRow
            (Nat.mod_lt _ (List.length_pos.mpr hne))]
          exact List.getElem_mem _
        obtain ⟨hb1, hb2⟩ := pick_signed_bounds f v.effTo a.rSigned hs
        refine ⟨v, hmem, ?_, f, hf, ?_, ?_⟩ <;> rw [← h]
        · exact hb1
        · exact hb2

theorem consLoop_window (n : Nat) (allowDup : Bool) (participants : List String)
    (versions : List VRow) (hne : versions ≠ []) :
    ∀ (l : List ConsAttempt) (used : List (String × String)) (rows : List ConsRow) (att : Nat),
      (∀ row ∈ rows, consRowOK versions row) →
      ∀ row ∈ (consLoop n allowDup participants versions l used rows att).1,
        consRowOK versions row := by
  intro l
  induction l with
  | nil =>
    intro used rows att hrows row hrow
    simp only [consLoop] at hrow
    exact hrows _ hrow
  | cons a rest ih =>
    intro used rows att hrows row hrow
    simp only [consLoop] at hrow
    by_cases hn : n ≤ rows.length
    · rw [if_pos hn] at hrow
      exact hrows _ hrow
    · rw [if_neg hn] at hrow
      cases hstep : consStep participants versions allowDup used a with
      | none =>
        rw [hstep] at hrow
        exact ih _ _ _ hrows _ hrow
      | some row2 =>
        rw [hstep] at hrow
        refine ih _ _ _ ?_ _ hrow
        intro x hx
        rcases List.mem_append.mp hx with hx | hx
        · exact hrows _ hx
        · simp only [List.mem_singleton] at hx
          rw [hx]
          exact consStep_ok participants versions allowDup used a hne hstep

/-- C5: in the file-driven consent generator every emitted row references a
version of the filtered pool (versions whose `effectiveFrom` is after the
reference date are excluded entirely), and its `signedAt` lies within
`[effectiveFrom, min(effectiveTo, reference date)]` (an open-ended
`effectiveTo` meaning the reference date). -/
theorem consent_signing_window (participants : List String) (vs : List VRow) (n : Nat)
    (allowDup : Bool) (stream : List ConsAttempt) (row : ConsRow)
    (hrow : row ∈ (make_rows participants (versionsKeep vs) n allowDup stream).1) :
    ∃ v ∈ versionsKeep vs, v ∈ vs ∧ row.consent_version_id = v.consent_version_id ∧
      ∃ f, v.effFrom = some f ∧ f ≤ todayEnd ∧ f ≤ row.signedAt ∧
        row.signedAt ≤ min (v.effTo.getD todayEnd) todayEnd := by
  simp only [make_rows] at hrow
  by_cases hempty : participants = [] ∨ versionsKeep vs = []
  · rw [if_pos hempty] at hrow
    simp at hrow
  · rw [if_neg hempty] at hrow
    have hne : versionsKeep vs ≠ [] := fun h => hempty (Or.inr h)
    have hok := consLoop_window n allowDup participants (versionsKeep vs) hne _ _ _ _
      (by simp) row hrow
    obtain ⟨v, hv, hcv, f, hf, h1, h2⟩ := hok
    obtain ⟨hvv, f2, hf2, hft⟩ := mem_versionsKeep hv
    rw [hf] at hf2
    simp only [Option.some.injEq] at hf2
    exact ⟨v, hv, hvv, hcv, f, hf, hf2 ▸ hft, h1, h2⟩

/-- Witness for C5: one participant, a current version and a future-only
version; the emitted row references the current version and is signed inside
its window. -/
theorem consent_signing_window_witness :
    ∃ v ∈ versionsKeep [⟨"v1", some 0, none⟩, ⟨"vF", some 100000000, none⟩],
      v ∈ ([⟨"v1", some 0, none⟩, ⟨"vF", some 100000000, none⟩] : List VRow) ∧
      (⟨"p", "v1", 0, none⟩ : ConsRow).consent_version_id = v.consent_version_id ∧
      ∃ f, v.effFrom = some f ∧ f ≤ todayEnd ∧
        f ≤ (⟨"p", "v1", 0, none⟩ : ConsRow).signedAt ∧
        (⟨"p", "v1", 0, none⟩ : ConsRow).signedAt ≤
          min (v.effTo.getD todayEnd) todayEnd :=
  consent_signing_window ["p"] [⟨"v1", some 0, none⟩, ⟨"vF", some 100000000, none⟩] 2 false
    [⟨0, 0, 0, false, 0⟩] ⟨"p", "v1", 0, none⟩ (by decide)

/-! ## Payment claims -/

theorem pick_amount_ne_zero (r : Nat) : pick_amount r ≠ 0 := by
  obtain ⟨p, hp, hw, he⟩ := pick_weighted_mem AMOUNT_BUCKETS r (by decide)
  show pick_weighted AMOUNT_BUCKETS r ≠ 0
  rw [he]
  simp only [AMOUNT_BUCKETS, List.mem_cons, List.not_mem_nil, or_false] at hp
  rcases hp with h | h | h | h | h | h | h <;> rw [h] <;> decide

theorem pick_method_ne_none (r : Nat) : pick_method r ≠ "none" := by
  obtain ⟨p, hp, hw, he⟩ := pick_weighted_mem METHODS r (by decide)
  show pick_weighted METHODS r ≠ "none"
  rw [he]
  simp only [METHODS, List.mem_cons, List.not_mem_nil, or_false] at hp
  rcases hp with h | h | h | h | h <;> rw [h] <;> decide

/-- C3: a payment's amount is 0 exactly when its status is "void" or
"waived", its method is "none" in exactly those same cases (otherwise the
amount comes from the non-zero buckets and the method from the real methods
list), and an enrollment status of "waitlisted" always maps to payment status
"void". -/
theorem payment_zeroing_iff (st : String) (r1 r2 r3 : Nat) :
    (amount_for_status st r1 = 0 ↔ (st = "void" ∨ st = "waived")) ∧
    (method_for_status st r2 = "none" ↔ (st = "void" ∨ st = "waived")) ∧
    map_payment_status "waitlisted" r3 = "void" := by
  refine ⟨?_, ?_, rfl⟩
  · unfold amount_for_status
    by_cases h : st = "void" ∨ st = "waived"
    · simp [h]
    · simp [h, pick_amount_ne_zero]
  · unfold method_for_status
    by_cases h : st = "void" ∨ st = "waived"
    · simp [h]
    · simp [h, pick_method_ne_none]

/-! ## Standalone consent generator: the withdrawal bound fails at the
reference-date edge -/

/-- C4 (code bug): `make_participant_consent_row` documents that a generated
`withdrawnAt` is "after signedAt (and not in the future)", and the spec
requires `withdrawnAt ≤ min(effective-to, reference date)` (the reference
date, since this variant has no version window).  But when `signedAt` falls
within the last minute of the reference day, the clamp
`latest = min(signedAt + 240 d, today_end)` leaves a window shorter than the
one-minute lower offset, `rand_dt_between` swaps the inverted bounds, and the
row can get `withdrawnAt = signedAt + 60 > today_end`.  Concretely: with
`signedAt = todayEnd - 30` the generator emits `withdrawnAt = todayEnd + 30`. -/
theorem withdrawnAt_can_exceed_reference_date :
    make_participant_consent_row 46742369 true 30 = (86369, some 86429) ∧
    todayEnd = 86399 ∧ todayEnd < 86429 ∧ (86369 : Int) < 86429 := by decide

/-! ## Session generator claims -/

theorem pick_times_eq_candidate (existing : List (Int × Int)) :
    ∀ (t : TryRnd) (rest : List TryRnd), ∃ t0,
      pick_times_for_room existing t rest = candidateTimes t0 := by
  intro t rest
  induction rest generalizing t with
  | nil =>
    rw [pick_times_for_room]
    by_cases h : existing.all
        (fun p => !overlaps (candidateTimes t).1 (candidateTimes t).2 p.1 p.2)
    · exact ⟨t, by simp [h]⟩
    · exact ⟨t, by simp [h]⟩
  | cons t2 rest2 ih =>
    rw [pick_times_for_room]
    by_cases h : existing.all
        (fun p => !overlaps (candidateTimes t).1 (candidateTimes t).2 p.1 p.2)
    · exact ⟨t, by simp [h]⟩
    · simpa [h] using ih t2

theorem candidateTimes_bounds (t : TryRnd) :
    (candidateTimes t).1 < (candidateTimes t).2 ∧
    45 * 60 ≤ (candidateTimes t).2 - (candidateTimes t).1 ∧
    (candidateTimes t).2 - (candidateTimes t).1 ≤ 120 * 60 := by
  simp only [candidateTimes, sessionDuration, Int.ofNat_eq_natCast]
  have h : t.rDur % 76 < 76 := Nat.mod_lt _ (by omega)
  omega

/-- C10: every session row has `startTs` strictly before `endTs` with a
duration between 45 and 120 minutes inclusive — also when overlap avoidance
gives up and the fallback (possibly overlapping) candidate is accepted,
because every candidate (fallback included) is built as
`start + randint(45, 120) minutes`. -/
theorem session_duration_bounds (sid rid : String) (roomCap : Option Int)
    (sched : List (Int × Int)) (t : TryRnd) (rest : List TryRnd) (rCap : Nat) :
    (make_row sid rid roomCap sched t rest rCap).1.startTs <
      (make_row sid rid roomCap sched t rest rCap).1.endTs ∧
    45 * 60 ≤ (make_row sid rid roomCap sched t rest rCap).1.endTs -
      (make_row sid rid roomCap sched t rest rCap).1.startTs ∧
    (make_row sid rid roomCap sched t rest rCap).1.endTs -
      (make_row sid rid roomCap sched t rest rCap).1.startTs ≤ 120 * 60 := by
  obtain ⟨t0, ht⟩ := pick_times_eq_candidate sched t rest
  have hb := candidateTimes_bounds t0
  simp only [make_row, ht]
  exact hb

/-! ## Bounded pairing loops (claim C8) -/

theorem payLoop_nodup (n : Nat) :
    ∀ (l : List PayAttempt) (used : List (String × String)) (rows : List Pay) (att : Nat),
      (rows.map payPair).Nodup →
      (∀ p ∈ rows.map payPair, p ∈ used) →
      ((payLoop n l used rows att).1.map payPair).Nodup := by
  intro l
  induction l with
  | nil => intro used rows att h1 _; simpa [payLoop] using h1
  | cons a rest ih =>
    intro used rows att h1 h2
    simp only [payLoop]
    by_cases hn : n ≤ rows.length
    · simpa [if_pos hn] using h1
    · simp only [if_neg hn]
      by_cases hmem : payAttPair a ∈ used
      · rw [if_pos hmem]
        exact ih _ _ _ h1 h2
      · rw [if_neg hmem]
        apply ih
        · rw [List.map_append]
          refine nodup_snoc h1 ?_
          intro hx
          exact hmem (h2 _ hx)
        · intro p hp
          rw [List.map_append] at hp
          rcases List.mem_append.mp hp with hp | hp
          · exact List.mem_cons_of_mem _ (h2 _ hp)
          · simp only [List.map_cons, List.map_nil, List.mem_singleton] at hp
            rw [hp]
            exact List.mem_cons_self _ _

theorem payLoop_length_le (n : Nat) :
    ∀ (l : List PayAttempt) (used : List (String × String)) (rows : List Pay) (att : Nat),
      rows.length ≤ n → (payLoop n l used rows att).1.length ≤ n := by
  intro l
  induction l with
  | nil => intro used rows att h; simpa [payLoop] using h
  | cons a rest ih =>
    intro used rows att h
    simp only [payLoop]
    by_cases hn : n ≤ rows.length
    · simpa [if_pos hn] using h
    · simp only [if_neg hn]
      by_cases hmem : payAttPair a ∈ used
      · rw [if_pos hmem]
        exact ih _ _ _ h
      · rw [if_neg hmem]
        refine ih _ _ _ ?_
        simp only [List.length_append, List.length_singleton]
        omega

theorem payLoop_att_le (n : Nat) :
    ∀ (l : List PayAttempt) (used : List (String × String)) (rows : List Pay) (att : Nat),
      (payLoop n l used rows att).2 ≤ att + l.length := by
  intro l
  induction l with
  | nil => intro used rows att; simp [payLoop]
  | cons a rest ih =>
    intro used rows att
    simp only [payLoop, List.length_cons]
    by_cases hn : n ≤ rows.length
    · simp only [if_pos hn]
      omega
    · simp only [if_neg hn]
      by_cases hmem : payAttPair a ∈ used
      · rw [if_pos hmem]
        have := ih used rows (att + 1)
        omega
      · rw [if_neg hmem]
        refine le_trans (ih _ _ _) ?_
        omega

theorem payLoop_pairs_subset (n : Nat) :
    ∀ (l : List PayAttempt) (used : List (String × String)) (rows : List Pay) (att : Nat),
      ∀ p ∈ (payLoop n l used rows att).1.map payPair,
        p ∈ rows.map payPair ∨ p ∈ l.map payAttPair := by
  intro l
  induction l with
  | nil => intro used rows att p hp; simp only [payLoop] at hp; exact Or.inl hp
  | cons a rest ih =>
    intro used rows att p hp
    simp only [payLoop] at hp
    by_cases hn : n ≤ rows.length
    · rw [if_pos hn] at hp
      exact Or.inl hp
    · rw [if_neg hn] at hp
      by_cases hmem : payAttPair a ∈ used
      · rw [if_pos hmem] at hp
        rcases ih _ _ _ _ hp with h | h
        · exact Or.inl h
        · exact Or.inr (List.mem_cons_of_mem _ h)
      · rw [if_neg hmem] at hp
        rcases ih _ _ _ _ hp with h | h
        · rw [List.map_append] at h
          rcases List.mem_append.mp h with h | h
          · exact Or.inl h
          · simp only [List.map_cons, List.map_nil, List.mem_singleton] at h
            rw [h]
            exact Or.inr (List.mem_cons_self _ _)
        · exact Or.inr (List.mem_cons_of_mem _ h)

theorem consLoop_length_le (n : Nat) (allowDup : Bool) (participants : List String)
    (versions : List VRow) :
    ∀ (l : List ConsAttempt) (used : List (String × String)) (rows : List ConsRow) (att : Nat),
      rows.length ≤ n →
      (consLoop n allowDup participants versions l used rows att).1.length ≤ n := by
  intro l
  induction l with
  | nil => intro used rows att h; simpa [consLoop] using h
  | cons a rest ih =>
    intro used rows att h
    simp only [consLoop]
    by_cases hn : n ≤ rows.length
    · simpa [if_pos hn] using h
    · simp only [if_neg hn]
      cases hstep : consStep participants versions allowDup used a with
      | none => exact ih _ _ _ h
      | some row =>
        refine ih _ _ _ ?_
        simp only [List.length_append, List.length_singleton]
        omega

theorem consLoop_att_le (n : Nat) (allowDup : Bool) (participants : List String)
    (versions : List VRow) :
    ∀ (l : List ConsAttempt) (used : List (String × String)) (rows : List ConsRow) (att : Nat),
      (consLoop n allowDup participants versions l used rows att).2 ≤ att + l.length := by
  intro l
  induction l with
  | nil => intro used rows att; simp [consLoop]
  | cons a rest ih =>
    intro used rows att
    simp only [consLoop, List.length_cons]
    by_cases hn : n ≤ rows.length
    · simp only [if_pos hn]
      omega
    · simp only [if_neg hn]
      cases hstep : consStep participants versions allowDup used a with
      | none =>
        refine le_trans (ih _ _ _) ?_
        omega
      | some row =>
        refine le_trans (ih _ _ _) ?_
        omega

theorem consStep_pair (participants : List String) (versions : List VRow)
    (allowDup : Bool) (used : List (String × String)) (a : ConsAttempt) {row : ConsRow}
    (h : consStep participants versions allowDup used a = some row) :
    consPair row = consAttPair participants versions a := by
  simp only [consStep] at h
  by_cases hdup : allowDup = false ∧
      (participants.getD (a.rPid % participants.length) "",
        (versions.getD (a.rVer % versions.length) defaultVRow).consent_version_id) ∈ used
  · rw [if_pos hdup] at h
    simp at h
  · rw [if_neg hdup] at h
    split at h
    · simp at h
    · split at h
      · simp at h
      · simp only [Option.some.injEq] at h
        rw [← h]
        rfl

theorem consStep_not_mem_used (participants : List String) (versions : List VRow)
    (used : List (String × String)) (a : ConsAttempt) {row : ConsRow}
    (h : consStep participants versions false used a = some row) :
    consAttPair participants versions a ∉ used := by
  simp only [consStep] at h
  intro hmem
  rw [if_pos ⟨trivial, hmem⟩] at h
  simp at h

theorem consLoop_nodup (n : Nat) (participants : List String) (versions : List VRow) :
    ∀ (l : List ConsAttempt) (used : List (String × String)) (rows : List ConsRow) (att : Nat),
      (rows.map consPair).Nodup →
      (∀ p ∈ rows.map consPair, p ∈ used) →
      ((consLoop n false participants versions l used rows att).1.map consPair).Nodup := by
  intro l
  induction l with
  | nil => intro used rows att h1 _; simpa [consLoop] using h1
  | cons a rest ih =>
    intro used rows att h1 h2
    simp only [consLoop]
    by_cases hn : n ≤ rows.length
    · simpa [if_pos hn] using h1
    · simp only [if_neg hn]
      cases hstep : consStep participants versions false used a with
      | none => exact ih _ _ _ h1 h2
      | some row =>
        apply ih
        · rw [List.map_append]
          refine nodup_snoc h1 ?_
          intro hx
          have hpair := consStep_pair participants versions false used a hstep
          rw [hpair] at hx
          exact consStep_not_mem_used participants versions used a hstep (h2 _ hx)
        · intro p hp
          rw [List.map_append] at hp
          rcases List.mem_append.mp hp with hp | hp
          · exact List.mem_cons_of_mem _ (h2 _ hp)
          · simp only [List.map_cons, List.map_nil, List.mem_singleton] at hp
            rw [hp]
            exact List.mem_cons_self _ _

theorem consLoop_pairs_subset (n : Nat) (allowDup : Bool) (participants : List String)
    (versions : List VRow) :
    ∀ (l : List ConsAttempt) (used : List (String × String)) (rows : List ConsRow) (att : Nat),
      ∀ p ∈ (consLoop n allowDup participants versions l used rows att).1.map consPair,
        p ∈ rows.map consPair ∨ p ∈ l.map (consAttPair participants versions) := by
  intro l
  induction l with
  | nil => intro used rows att p hp; simp only [consLoop] at hp; exact Or.inl hp
  | cons a rest ih =>
    intro used rows att p hp
    simp only [consLoop] at hp
    by_cases hn : n ≤ rows.length
    · rw [if_pos hn] at hp
      exact Or.inl hp
    · rw [if_neg hn] at hp
      cases hstep : consStep participants versions allowDup used a with
      | none =>
        rw [hstep] at hp
        rcases ih _ _ _ _ hp with h | h
        · exact Or.inl h
        · exact Or.inr (List.mem_cons_of_mem _ h)
      | some row =>
        rw [hstep] at hp
        rcases ih _ _ _ _ hp with h | h
        · rw [List.map_append] at h
          rcases List.mem_append.mp h with h | h
          · exact Or.inl h
          · simp only [List.map_cons, List.map_nil, List.mem_singleton] at h
            rw [h, consStep_pair participants versions allowDup used a hstep]
            exact Or.inr (List.mem_cons_self _ _)
        · exact Or.inr (List.mem_cons_of_mem _ h)

theorem length_le_dedup {α : Type} [DecidableEq α] {l l2 : List α}
    (hnd : l.Nodup) (hsub : l ⊆ l2) : l.length ≤ l2.dedup.length := by
  have hsub2 : l ⊆ l2.dedup := fun x hx => List.mem_dedup.mpr (hsub hx)
  exact (hnd.subperm hsub2).length_le

/-- C8: each uniqueness-guarded pairing loop terminates within its constant
multiple of the requested row count `n` in attempts (15·n for enrollments,
10·n for payments and consents) and emits at most `n` rows; and because the
emitted key pairs of each loop (enrollments, payments, and consents in the
uniqueness-guarded default mode) are distinct and drawn from the sampled pool
pairs, a pool with fewer than `n` distinct pairs silently yields fewer rows
than requested (the run is total — no error is raised). -/
theorem pairing_loops_bounded (n : Nat) (es : List Attempt) (ps : List PayAttempt)
    (participants : List String) (versions : List VRow) (dup : Bool)
    (cs : List ConsAttempt) :
    (runEnrollments n es).2 ≤ 15 * n ∧
    (runEnrollments n es).1.length ≤ n ∧
    (runEnrollments n es).1.length ≤ ((es.take (15 * n)).map attPair).dedup.length ∧
    (runPayments n ps).2 ≤ 10 * n ∧
    (runPayments n ps).1.length ≤ n ∧
    (runPayments n ps).1.length ≤ ((ps.take (10 * n)).map payAttPair).dedup.length ∧
    (make_rows participants versions n dup cs).2 ≤ 10 * n ∧
    (make_rows participants versions n dup cs).1.length ≤ n ∧
    (make_rows participants versions n false cs).1.length ≤
      ((cs.take (10 * n)).map (consAttPair participants versions)).dedup.length := by
  refine ⟨?_, ?_, ?_, ?_, ?_, ?_, ?_, ?_, ?_⟩
  · have h := enrollLoop_att_le n (es.take (15 * n)) ⟨[], []⟩ [] 0
    have h2 : (es.take (15 * n)).length ≤ 15 * n := by
      simp [List.length_take]
    simpa [runEnrollments] using le_trans h (by omega)
  · exact enrollLoop_length_le n _ _ _ _ (by simp)
  · have hnd : ((runEnrollments n es).1.map enrPair).Nodup :=
      enrollLoop_nodup n _ _ _ _ (by simp) (by simp)
    have hsub : ((runEnrollments n es).1.map enrPair) ⊆ (es.take (15 * n)).map attPair := by
      intro p hp
      rcases enrollLoop_pairs_subset n _ _ _ _ p hp with h | h
      · simp at h
      · exact h
    have := length_le_dedup hnd hsub
    simpa using this
  · have h := payLoop_att_le n (ps.take (10 * n)) [] [] 0
    have h2 : (ps.take (10 * n)).length ≤ 10 * n := by
      simp [List.length_take]
    simpa [runPayments] using le_trans h (by omega)
  · exact payLoop_length_le n _ _ _ _ (by simp)
  · have hnd : ((runPayments n ps).1.map payPair).Nodup :=
      payLoop_nodup n _ _ _ _ (by simp) (by simp)
    have hsub : ((runPayments n ps).1.map payPair) ⊆ (ps.take (10 * n)).map payAttPair := by
      intro p hp
      rcases payLoop_pairs_subset n _ _ _ _ p hp with h | h
      · simp at h
      · exact h
    have := length_le_dedup hnd hsub
    simpa using this
  · simp only [make_rows]
    by_cases hempty : participants = [] ∨ versions = []
    · rw [if_pos hempty]
      simp
    · rw [if_neg hempty]
      have h := consLoop_att_le n dup participants versions (cs.take (10 * n)) [] [] 0
      have h2 : (cs.take (10 * n)).length ≤ 10 * n := by
        simp [List.length_take]
      exact le_trans h (by omega)
  · simp only [make_rows]
    by_cases hempty : participants = [] ∨ versions = []
    · rw [if_pos hempty]
      simp
    · rw [if_neg hempty]
      exact consLoop_length_le n dup participants versions _ _ _ _ (by simp)
  · simp only [make_rows]
    by_cases hempty : participants = [] ∨ versions = []
    · rw [if_pos hempty]
      simp
    · rw [if_neg hempty]
      have hnd : ((consLoop n false participants versions (cs.take (10 * n)) [] [] 0).1.map
          consPair).Nodup :=
        consLoop_nodup n participants versions _ _ _ _ (by simp) (by simp)
      have hsub : ((consLoop n false participants versions (cs.take (10 * n)) [] [] 0).1.map
          consPair) ⊆ (cs.take (10 * n)).map (consAttPair participants versions) := by
        intro p hp
        rcases consLoop_pairs_subset n false participants versions _ _ _ _ p hp with h | h
        · simp at h
        · exact h
      have := length_le_dedup hnd hsub
      simpa using this

/-! ## StudyResearcher claims (C7) -/

theorem shuffle_length {α : Type} :
    ∀ (rs : List Nat) (l : List α), (shuffle l rs).length = l.length := by
  intro rs
  induction rs with
  | nil =>
    intro l
    cases l <;> simp [shuffle]
  | cons r rs ih =>
    intro l
    cases l with
    | nil => simp [shuffle]
    | cons a t =>
      simp only [shuffle, List.length_cons]
      rw [ih]
      have hi : r % (a :: t).length < (a :: t).length :=
        Nat.mod_lt _ (by simp)
      have h2 := List.length_eraseIdx_add_one hi
      simpa using h2

theorem pick_unique_pi_length (researchers : List String) (k : Nat) (shuf : List Nat) :
    (pick_unique researchers [] k shuf).length = min k researchers.length := by
  have hfil : researchers.filter (fun rid => decide (rid ∉ ([] : List String))) = researchers :=
    List.filter_eq_self.mpr (fun a _ => by simp)
  simp [pick_unique, hfil, List.length_take, shuffle_length]

theorem studyRows_has_pi (researchers : List String) (pi_per_study ra_min ra_max : Nat)
    (sid : String) (rnd : StudyRnd) (hres : researchers ≠ []) :
    ∃ r ∈ studyRows researchers pi_per_study ra_min ra_max sid rnd,
      r.study_id = sid ∧ r.role = "PI" := by
  have hpos : 0 < (pick_unique researchers [] (max 1 pi_per_study) rnd.shufPI).length := by
    rw [pick_unique_pi_length]
    have : 0 < researchers.length := List.length_pos.mpr hres
    omega
  obtain ⟨rid, hrid⟩ := List.exists_mem_of_length_pos hpos
  refine ⟨SR.mk sid rid "PI", ?_, rfl, rfl⟩
  simp only [studyRows]
  refine List.mem_append.mpr (Or.inl (List.mem_append.mpr (Or.inl ?_)))
  exact List.mem_map.mpr ⟨rid, hrid, rfl⟩

theorem baseline_has_pi (researchers : List String) (pi_per_study ra_min ra_max : Nat)
    (hres : researchers ≠ []) :
    ∀ (studies : List String) (rnds : List StudyRnd) (sid : String), sid ∈ studies →
      ∃ r ∈ baseline_assignments researchers pi_per_study ra_min ra_max studies rnds,
        r.study_id = sid ∧ r.role = "PI" := by
  intro studies
  induction studies with
  | nil => intro rnds sid h; simp at h
  | cons s rest ih =>
    intro rnds sid h
    rcases List.mem_cons.mp h with h | h
    · subst h
      cases rnds with
      | nil =>
        obtain ⟨r, hr, h1, h2⟩ :=
          studyRows_has_pi researchers pi_per_study ra_min ra_max sid defaultStudyRnd hres
        exact ⟨r, List.mem_append.mpr (Or.inl hr), h1, h2⟩
      | cons rnd rnds' =>
        obtain ⟨r, hr, h1, h2⟩ :=
          studyRows_has_pi researchers pi_per_study ra_min ra_max sid rnd hres
        exact ⟨r, List.mem_append.mpr (Or.inl hr), h1, h2⟩
    · cases rnds with
      | nil =>
        obtain ⟨r, hr, h1, h2⟩ := ih [] sid h
        exact ⟨r, List.mem_append.mpr (Or.inr hr), h1, h2⟩
      | cons rnd rnds' =>
        obtain ⟨r, hr, h1, h2⟩ := ih rnds' sid h
        exact ⟨r, List.mem_append.mpr (Or.inr hr), h1, h2⟩

theorem topUpLoop_mem_mono (target : Nat) (studies researchers : List String) :
    ∀ (l : List TopAttempt) (used : List (String × String)) (rows : List SR) (x : SR),
      x ∈ rows → x ∈ topUpLoop target studies researchers l used rows := by
  intro l
  induction l with
  | nil => intro used rows x hx; simpa [topUpLoop] using hx
  | cons a rest ih =>
    intro used rows x hx
    simp only [topUpLoop]
    by_cases hn : target ≤ rows.length
    · simpa [if_pos hn] using hx
    · simp only [if_neg hn]
      by_cases hmem : (studies.getD (a.rStudy % studies.length) "",
          researchers.getD (a.rRes % researchers.length) "") ∈ used
      · rw [if_pos hmem]
        exact ih _ _ _ hx
      · rw [if_neg hmem]
        exact ih _ _ _ (List.mem_append.mpr (Or.inl hx))

theorem top_up_mem_mono (rows : List SR) (target : Nat) (studies researchers : List String)
    (stream : List TopAttempt) (x : SR) (hx : x ∈ rows) :
    x ∈ top_up_to_target rows target studies researchers stream := by
  simp only [top_up_to_target]
  by_cases h : target = 0 ∨ target ≤ rows.length
  · rw [if_pos h]
    exact hx
  · rw [if_neg h]
    exact topUpLoop_mem_mono _ _ _ _ _ _ _ hx

/-- C7: given a non-empty researcher pool, the StudyResearcher generator
emits at least one row with role "PI" for every study in the pool: the
per-study baseline requests `max(1, pi_per_study)` PIs from the shuffled
pool, and the top-up phase only appends rows. -/
theorem every_study_gets_pi (studies researchers : List String)
    (pi_per_study ra_min ra_max n : Nat) (rnds : List StudyRnd)
    (stream : List TopAttempt) (sid : String)
    (hres : researchers ≠ []) (hsid : sid ∈ studies) :
    ∃ r ∈ runStudyResearchers studies researchers pi_per_study ra_min ra_max n rnds stream,
      r.study_id = sid ∧ r.role = "PI" := by
  obtain ⟨r, hr, h1, h2⟩ :=
    baseline_has_pi researchers pi_per_study ra_min ra_max hres studies rnds sid hsid
  refine ⟨r, ?_, h1, h2⟩
  simp only [runStudyResearchers]
  by_cases hcond : n ≠ 0 ∧
      (baseline_assignments researchers pi_per_study ra_min ra_max studies rnds).length < n
  · rw [if_pos hcond]
    exact top_up_mem_mono _ _ _ _ _ _ hr
  · rw [if_neg hcond]
    exact hr

/-- Witness for C7 at a concrete single-study, single-researcher pool. -/
theorem every_study_gets_pi_witness :
    ∃ r ∈ runStudyResearchers ["st1"] ["r1"] 1 1 3 0 [] [],
      r.study_id = "st1" ∧ r.role = "PI" :=
  every_study_gets_pi ["st1"] ["r1"] 1 1 3 0 [] [] "st1" (by decide) (by decide)

/-! ## Error handling of the file-driven consent generator (claim C9) -/

/-- C9: when no participant IDs are resolvable (the participants file is
missing, lacks a recognized id column — both surfacing as a raised error from
the reader — or yields an empty list), `main` of the file-driven consent
generator ends in a raised error before any output is produced; the same
holds when no usable consent versions are found. -/
theorem consent_main_aborts_without_inputs (pf : PartFile) (vf : VerFile) (n : Nat)
    (allowDup : Bool) (stream : List ConsAttempt) :
    (((∃ m, read_participant_ids pf = .error m) ∨ read_participant_ids pf = .ok []) →
      ∃ e, consentMain pf vf n allowDup stream = .error e) ∧
    (((∃ m, read_consent_versions vf = .error m) ∨ read_consent_versions vf = .ok []) →
      ∃ e, consentMain pf vf n allowDup stream = .error e) := by
  constructor
  · rintro (⟨m, hm⟩ | hok)
    · exact ⟨m, by simp [consentMain, hm]⟩
    · exact ⟨"No participants found.", by simp [consentMain, hok]⟩
  · intro hver
    cases hp : read_participant_ids pf with
    | error e => exact ⟨e, by simp [consentMain, hp]⟩
    | ok ps =>
      by_cases hps : ps = []
      · exact ⟨"No participants found.", by simp [consentMain, hp, hps]⟩
      · rcases hver with ⟨m, hm⟩ | hok
        · exact ⟨m, by simp [consentMain, hp, hps, hm]⟩
        · exact ⟨"No consent versions found (or all are future-only).",
            by simp [consentMain, hp, hps, hok]⟩

/-- Witness for C9: a missing participants file and, separately, a missing
consent-versions file each abort the run with an error. -/
theorem consent_main_aborts_without_inputs_witness :
    (∃ e, consentMain .missing (.json []) 1 false [] = .error e) ∧
    (∃ e, consentMain (.jsonStrs ["p"]) .missing 1 false [] = .error e) :=
  ⟨(consent_main_aborts_without_inputs .missing (.json []) 1 false []).1
      (Or.inl ⟨"participants file not found", rfl⟩),
   (consent_main_aborts_without_inputs (.jsonStrs ["p"]) .missing 1 false []).2
      (Or.inl ⟨"consent versions file not found", rfl⟩)⟩

end DataGen
